import Mathlib

/-!
Shallow embedding of the CPU-scheduling engine of the CSCE4600 repository
(`main.go`: `FCFSSchedule`, `SJFSchedule`, `SJFPrioritySchedule`, `RRSchedule`,
the `PriorityQueue` driven by Go's `container/heap`, and the metric
accumulation).  Go `int64` values are modelled as `Int`; Go `float64`
accumulators (`totalWait`, `totalTurnaround`, `lastCompletion`) are modelled as
`ℚ`, which is exact for the integer-valued sums the program forms at the
magnitudes relevant to every claim; `float64` division is modelled by `goDiv`
below, which records the NaN/±Inf special cases of IEEE division explicitly.
Each scheduling function returns, besides its outputs, the content of the
caller's `processes` slice after the call (`processesAfter`): Go slices share
their backing array with the caller, so an in-place `sort.Slice` is visible to
the caller while the purely-reading loops of FCFS and Round-Robin are not.
-/

namespace CSCE4600

/-- Go struct `Process` (fields `ProcessID`, `ArrivalTime`, `BurstDuration`,
`Priority`, all `int64`). -/
structure Process where
  processID : Int
  arrivalTime : Int
  burstDuration : Int
  priority : Int
deriving Repr, DecidableEq, Inhabited

/-- Go struct `TimeSlice` (fields `PID`, `Start`, `Stop`), one Gantt-chart
entry. -/
structure TimeSlice where
  pid : Int
  start : Int
  stop : Int
deriving Repr, DecidableEq, Inhabited

/-- One schedule-table row.  The Go code stores rows as `[]string` produced by
`fmt.Sprint` of the seven `int64` quantities below (in this order); we keep the
numbers themselves, which carry the same information. -/
structure Row where
  id : Int
  priority : Int
  burst : Int
  arrival : Int
  wait : Int
  turnaround : Int
  completion : Int
deriving Repr, DecidableEq, Inhabited

/-- Result of a Go `float64` division for the exactly-representable operands
this program produces: a finite rational, or one of the IEEE special values. -/
inductive GoFloat where
  | num (q : ℚ)
  | nan
  | posInf
  | negInf
deriving Repr, DecidableEq

/-- Go `float64` division `a / b` on exact operands: `0.0/0.0` is NaN,
`x/0.0` with `x ≠ 0` is a signed infinity, otherwise the exact quotient. -/
def goDiv (a b : ℚ) : GoFloat :=
  if b = 0 then
    if a = 0 then .nan else if 0 < a then .posInf else .negInf
  else .num (a / b)

/-! ## FCFSSchedule -/

/-- Loop-carried state of `FCFSSchedule`'s single `for` loop: the declared
variables `serviceTime`, `totalWait`, `totalTurnaround`, `lastCompletion`,
`waitingTime` (all zero-initialised), plus the `schedule` rows and `gantt`
entries appended so far. -/
structure FCFSAcc where
  serviceTime : Int
  totalWait : ℚ
  totalTurnaround : ℚ
  lastCompletion : ℚ
  waitingTime : Int
  rows : List Row
  gantt : List TimeSlice
deriving Repr, DecidableEq

def fcfsInit : FCFSAcc :=
  { serviceTime := 0, totalWait := 0, totalTurnaround := 0,
    lastCompletion := 0, waitingTime := 0, rows := [], gantt := [] }

/-- One iteration of `FCFSSchedule`'s loop body for process `p`
(`main.go` lines 91–127): `waitingTime` is reassigned only when
`p.ArrivalTime > 0`, otherwise the previous iteration's value is kept. -/
def fcfsStep (acc : FCFSAcc) (p : Process) : FCFSAcc :=
  let waitingTime := if p.arrivalTime > 0 then acc.serviceTime - p.arrivalTime
                     else acc.waitingTime
  let start := waitingTime + p.arrivalTime
  let turnaround := p.burstDuration + waitingTime
  let completion := p.burstDuration + p.arrivalTime + waitingTime
  let serviceTime := acc.serviceTime + p.burstDuration
  { serviceTime := serviceTime,
    totalWait := acc.totalWait + (waitingTime : ℚ),
    totalTurnaround := acc.totalTurnaround + (turnaround : ℚ),
    lastCompletion := (completion : ℚ),
    waitingTime := waitingTime,
    rows := acc.rows ++
      [{ id := p.processID, priority := p.priority, burst := p.burstDuration,
         arrival := p.arrivalTime, wait := waitingTime,
         turnaround := turnaround, completion := completion }],
    gantt := acc.gantt ++ [{ pid := p.processID, start := start, stop := serviceTime }] }

def fcfsRun (acc : FCFSAcc) : List Process → FCFSAcc
  | [] => acc
  | p :: rest => fcfsRun (fcfsStep acc p) rest

structure FCFSResult where
  processesAfter : List Process
  rows : List Row
  gantt : List TimeSlice
  aveWait : GoFloat
  aveTurnaround : GoFloat
  aveThroughput : GoFloat
deriving Repr, DecidableEq

/-- `FCFSSchedule` (`main.go` lines 79–139), minus the out-of-scope console
rendering.  The function never assigns to `processes[i]`, so the caller's
slice is returned unchanged. -/
def FCFSSchedule (processes : List Process) : FCFSResult :=
  let acc := fcfsRun fcfsInit processes
  let count : ℚ := (processes.length : ℚ)
  { processesAfter := processes,
    rows := acc.rows,
    gantt := acc.gantt,
    aveWait := goDiv acc.totalWait count,
    aveTurnaround := goDiv acc.totalTurnaround count,
    aveThroughput := goDiv count acc.lastCompletion }

/-! ## The in-place sort of SJFSchedule / SJFPrioritySchedule

Both functions begin with `sort.Slice(processes, func(i, j int) bool { return
processes[i].ArrivalTime < processes[j].ArrivalTime })`, which reorders the
caller's slice in place.  Go's `sort.Slice` is a pdqsort whose result is
determined by the comparator alone whenever all arrival times are distinct
(any correct comparison sort then produces the same slice); on ties its order
is not guaranteed stable in general, but for slices shorter than 12 elements
the stdlib runs a plain insertion sort, which is stable.  We model the sort by
a stable insertion sort, which therefore agrees with the program's actual
behaviour on every batch with distinct arrival times and on every batch
shorter than 12 processes (all the concrete batches in this file); whether
ties keep input order on longer batches is a stdlib implementation detail the
repository's code does not determine. -/

/-- Insert `p` after exactly those leading elements whose arrival time is
strictly smaller (the `<` comparator), keeping `p` before later-input
processes with equal arrival times. -/
def insertByArrival (p : Process) : List Process → List Process
  | [] => [p]
  | q :: rest =>
    if q.arrivalTime < p.arrivalTime then q :: insertByArrival p rest
    else p :: q :: rest

/-- Model of `sort.Slice(processes, ...ArrivalTime < ...ArrivalTime)`. -/
def sortByArrival : List Process → List Process
  | [] => []
  | p :: rest => insertByArrival p (sortByArrival rest)

/-- The arrival-time order the sort establishes. -/
def arrivalLE (p q : Process) : Prop := p.arrivalTime ≤ q.arrivalTime

instance : DecidablePred fun pq : Process × Process => arrivalLE pq.1 pq.2 :=
  fun _ => inferInstanceAs (Decidable (_ ≤ _))

instance (p q : Process) : Decidable (arrivalLE p q) :=
  inferInstanceAs (Decidable (_ ≤ _))

/-! ## The ready-order primitive

`PriorityQueue` is a `[]*PriorityProcess` ordered by `Priority` through the
`container/heap` package; `heapUp`/`heapDown` are Go's `heap.up`/`heap.down`
specialised to the `Less`/`Swap` of `PriorityQueue` (`Less(i,j) = pq[i].
Priority < pq[j].Priority`). -/

/-- Go struct `PriorityProcess` (a `Process` plus its ready-order key
`Priority`, a Go `int`). -/
structure PriorityProcess where
  process : Process
  priority : Int
deriving Repr, DecidableEq, Inhabited

/-- `PriorityQueue.Less(i, j)`. -/
def pqLess (pq : Array PriorityProcess) (i j : Nat) : Bool :=
  (pq.getD i default).priority < (pq.getD j default).priority

/-- `PriorityQueue.Swap(i, j)`; indices are always in range at every call
site, the guard only keeps the function total. -/
def pqSwap (pq : Array PriorityProcess) (i j : Nat) : Array PriorityProcess :=
  if h : i < pq.size ∧ j < pq.size then pq.swap ⟨i, h.1⟩ ⟨j, h.2⟩ else pq

/-- The body of Go's `heap.up(h, j)` loop, recursing on an explicit bound:
the cursor `j` strictly decreases on every pass (`i = (j-1)/2 < j` whenever
`j ≥ 1`, and `j = 0` makes `i = j` end the loop — note Go's `(j-1)/2` is `0`
at `j = 0` by truncated division, matching `Nat` subtraction), so a bound of
`j + 1` passes is never exhausted and the `0` case is unreachable. -/
def heapUpAux (bound : Nat) (pq : Array PriorityProcess) (j : Nat) : Array PriorityProcess :=
  match bound with
  | 0 => pq
  | bound + 1 =>
    let i := (j - 1) / 2
    if i = j ∨ ¬ pqLess pq j i then pq
    else heapUpAux bound (pqSwap pq i j) i

/-- `heap.up(h, j)`. -/
def heapUp (pq : Array PriorityProcess) (j : Nat) : Array PriorityProcess :=
  heapUpAux (j + 1) pq j

/-- The body of Go's `heap.down(h, i, n)` loop (its boolean result, unused by
this program's calls, is dropped), recursing on an explicit bound: the cursor
`i` strictly increases on every pass (`j ≥ 2i+1 > i`) while staying below `n`,
so a bound of `n` passes is never exhausted (when it reaches `0`, `i ≥ n`
forces `n ≤ 2i+1`, the very condition on which Go's loop breaks, so returning
`pq` coincides with the loop's behaviour either way). -/
def heapDownAux (bound : Nat) (pq : Array PriorityProcess) (i n : Nat) : Array PriorityProcess :=
  match bound with
  | 0 => pq
  | bound + 1 =>
    let j1 := 2 * i + 1
    if n ≤ j1 then pq
    else
      let j := if j1 + 1 < n ∧ pqLess pq (j1 + 1) j1 then j1 + 1 else j1
      if ¬ pqLess pq j i then pq
      else heapDownAux bound (pqSwap pq i j) j n

/-- `heap.down(h, i, n)`. -/
def heapDown (pq : Array PriorityProcess) (i n : Nat) : Array PriorityProcess :=
  heapDownAux n pq i n

/-- `heap.Push(&readyQueue, x)`: append, then sift up from the last slot. -/
def heapPush (pq : Array PriorityProcess) (x : PriorityProcess) : Array PriorityProcess :=
  let pq2 := pq.push x
  heapUp pq2 (pq2.size - 1)

/-- `heap.Pop(&readyQueue)`: swap the root with the last slot, sift down over
the first `n-1` slots, then remove and return the last slot.  On an empty
queue Go's `h.Swap(0, n-1)` indexes `pq[0]`/`pq[-1]` and panics with an index
out of range; that panic is modelled as `none`. -/
def heapPop (pq : Array PriorityProcess) : Option (PriorityProcess × Array PriorityProcess) :=
  if pq.size = 0 then none
  else
    let n := pq.size - 1
    let pq1 := pqSwap pq 0 n
    let pq2 := heapDown pq1 0 n
    some (pq2.getD n default, pq2.extract 0 n)

/-! ## SJFSchedule and SJFPrioritySchedule

The two functions are line-for-line identical except for the key pushed with
each process (`int(p.BurstDuration)` for SJF, `int(1.0 /
float64(p.BurstDuration))` for SJF-Priority), so they share one loop here,
parametrised by the key. -/

/-- SJF-Priority's ready-order key `int(1.0 / float64(burstDuration))`
(`main.go` line 174): float division of 1 by the burst, truncated toward zero
by the `int` conversion.  For every nonzero `int64` burst this equals the
truncated integer division `1 / burstDuration` (the quotient's magnitude is
either 1, at burst ±1, or strictly between 0 and 1, truncating to 0), which is
how it is modelled; a zero burst, which the spec rules out of valid input,
would make Go divide by floating zero instead. -/
def sjfPriorityKey (burstDuration : Int) : Int := Int.tdiv 1 burstDuration

/-- SJF's ready-order key `int(p.BurstDuration)` (`main.go` line 302; the
`int64` → `int` conversion is the identity on a 64-bit platform). -/
def sjfKey (burstDuration : Int) : Int := burstDuration

/-- Loop-carried state of the `for processCounter < len(processes)` loop
shared by `SJFSchedule` and `SJFPrioritySchedule`. -/
structure SJFState where
  serviceTime : Int
  totalWait : ℚ
  totalTurnaround : ℚ
  lastCompletion : ℚ
  waitingTime : Int
  rows : List (Option Row)
  gantt : List TimeSlice
  readyQueue : Array PriorityProcess
  processCounter : Nat
deriving Repr

/-- `schedule = make([][]string, n)` starts as `n` nil rows; writing row `i`
mirrors `schedule[i] = ...` via `List.set` (identity when out of range — which
never happens at a call site: in `SJFSchedule`/`SJFPrioritySchedule` the index
`processCounter-1` is always in range, since a successful pop implies at least
one push and hence `1 ≤ processCounter ≤ n`, and in `RRSchedule` the missing
Go bounds check is modelled explicitly before the write). -/
def setRow (rows : List (Option Row)) (i : Nat) (r : Row) : List (Option Row) :=
  rows.set i (some r)

/-- Outcome of the SJF loop: normal completion with the rows, Gantt trace and
the three aggregates; or the runtime panic from popping the empty ready queue;
or exhaustion of the fuel bound (never reached with the bound used below: each
iteration pops exactly one of the at most `n` pushed elements or panics, and
once `n` pops have happened `processCounter = n` ends the loop). -/
inductive SJFOut where
  | ok (rows : List (Option Row)) (gantt : List TimeSlice)
      (aveWait aveTurnaround aveThroughput : GoFloat)
  | emptyPop
  | outOfFuel
deriving Repr, DecidableEq

/-- The admission loop `for i := processCounter; i < len(processes); i++ {...}`
(`main.go` lines 300–307): since a push happens exactly on the iterations that
continue, `i` always equals `processCounter`, so it is a while loop on
`processCounter`, recursing on the explicit bound `ps.length -
processCounter`, which is exactly the number of passes left before the
condition `processCounter < len(processes)` fails (each pass increments
`processCounter`, so the `0` case always coincides with the loop condition
failing). -/
def sjfAdmitAux (key : Int → Int) (ps : List Process) (bound : Nat) (st : SJFState) : SJFState :=
  match bound with
  | 0 => st
  | bound + 1 =>
    if st.processCounter < ps.length ∧
        (ps.getD st.processCounter default).arrivalTime ≤ st.serviceTime then
      let p := ps.getD st.processCounter default
      sjfAdmitAux key ps bound { st with
        readyQueue := heapPush st.readyQueue ⟨p, key p.burstDuration⟩,
        processCounter := st.processCounter + 1 }
    else st

def sjfAdmit (key : Int → Int) (ps : List Process) (st : SJFState) : SJFState :=
  sjfAdmitAux key ps (ps.length - st.processCounter) st

/-- The body of `for processCounter < len(processes)` in `SJFSchedule`
(`main.go` lines 298–346) and `SJFPrioritySchedule` (lines 169–219). -/
def sjfLoop (key : Int → Int) (ps : List Process) : Nat → SJFState → SJFOut
  | 0, _ => .outOfFuel
  | fuel + 1, st =>
    if st.processCounter < ps.length then
      let st := sjfAdmit key ps st
      match heapPop st.readyQueue with
      | none => .emptyPop
      | some (current, q2) =>
        let currentProcess := current.process
        let waitingTime := st.serviceTime - currentProcess.arrivalTime
        let start := waitingTime + currentProcess.arrivalTime
        let turnaround := currentProcess.burstDuration + waitingTime
        let completion :=
          currentProcess.burstDuration + currentProcess.arrivalTime + waitingTime
        let serviceTime := st.serviceTime + currentProcess.burstDuration
        sjfLoop key ps fuel
          { st with
            readyQueue := q2,
            serviceTime := serviceTime,
            waitingTime := waitingTime,
            totalWait := st.totalWait + (waitingTime : ℚ),
            totalTurnaround := st.totalTurnaround + (turnaround : ℚ),
            lastCompletion := (completion : ℚ),
            gantt := st.gantt ++
              [{ pid := currentProcess.processID, start := start, stop := serviceTime }],
            rows := setRow st.rows (st.processCounter - 1)
              { id := currentProcess.processID, priority := currentProcess.priority,
                burst := currentProcess.burstDuration,
                arrival := currentProcess.arrivalTime, wait := waitingTime,
                turnaround := turnaround, completion := completion } }
    else
      .ok st.rows st.gantt
        (goDiv st.totalWait (ps.length : ℚ))
        (goDiv st.totalTurnaround (ps.length : ℚ))
        (goDiv (ps.length : ℚ) st.lastCompletion)

def sjfInit (n : Nat) : SJFState :=
  { serviceTime := 0, totalWait := 0, totalTurnaround := 0, lastCompletion := 0,
    waitingTime := 0, rows := List.replicate n none, gantt := [],
    readyQueue := #[], processCounter := 0 }

/-- `SJFSchedule` (`main.go` lines 274–358) minus the console rendering.  The
first component is the caller's slice after the call: the in-place
`sort.Slice` reorders it before the loop runs (and remains reordered even if
the loop then panics). -/
def SJFSchedule (processes : List Process) : List Process × SJFOut :=
  let sorted := sortByArrival processes
  (sorted, sjfLoop sjfKey sorted (processes.length + 1) (sjfInit processes.length))

/-- `SJFPrioritySchedule` (`main.go` lines 145–231) minus the console
rendering; identical to `SJFSchedule` except for the ready-order key. -/
def SJFPrioritySchedule (processes : List Process) : List Process × SJFOut :=
  let sorted := sortByArrival processes
  (sorted,
   sjfLoop sjfPriorityKey sorted (processes.length + 1) (sjfInit processes.length))

/-! ## RRSchedule -/

/-- Ghost record of one Round-Robin dispatch: the row value the loop writes
into the schedule table (whose `burst` column holds this dispatch's
`timeSlice` and whose `arrival` column holds this dispatch's `start`, exactly
as in `main.go` lines 418–426), together with the dispatched process's
`ArrivalTime` (needed to state per-process timing properties, since the row
itself stores `start` in the arrival column). -/
structure Dispatch where
  procArrivalTime : Int
  row : Row
deriving Repr, DecidableEq, Inhabited

/-- Loop-carried state of `RRSchedule`'s main loop (`main.go` lines 384–447).
`dispatches` is a ghost log recording, in order, every schedule-table write
the loop performs (the very values of the locals `timeSlice`, `start`,
`waitingTime`, `turnaround`, `completion` of each dispatch); it adds no
behaviour and only lets per-dispatch properties be stated. -/
structure RRState where
  serviceTime : Int
  totalWait : ℚ
  totalTurnaround : ℚ
  lastCompletion : ℚ
  rows : List (Option Row)
  gantt : List TimeSlice
  dispatches : List Dispatch
  queue : List Process
  processCounter : Nat
deriving Repr

/-- Outcome of `RRSchedule`: normal completion; the index-out-of-range panic
of `schedule[currentProcess.ProcessID-1] = ...` when `ProcessID-1` is outside
`0 ≤ · < len(processes)`; or fuel exhaustion of the model's bound. -/
inductive RROut where
  | ok (rows : List (Option Row)) (gantt : List TimeSlice) (dispatches : List Dispatch)
      (aveWait aveTurnaround aveThroughput : GoFloat)
  | indexPanic
  | outOfFuel
deriving Repr, DecidableEq

def RROut.isOk : RROut → Bool
  | .ok _ _ _ _ _ _ => true
  | _ => false

/-- The Gantt trace of a completed `RRSchedule` run (empty otherwise). -/
def RROut.ganttOf : RROut → List TimeSlice
  | .ok _ gantt _ _ _ _ => gantt
  | _ => []

/-- The ghost dispatch log of a completed `RRSchedule` run. -/
def RROut.dispatchLog : RROut → List Dispatch
  | .ok _ _ dispatches _ _ _ => dispatches
  | _ => []

/-- The admission loop `for processCounter < len(processes) &&
processes[processCounter].ArrivalTime <= serviceTime` (`main.go` lines
386–389), appending arrived processes to the back of the FIFO queue; it
recurses on the explicit bound `ps.length - processCounter`, exactly the
number of passes left before `processCounter < len(processes)` fails. -/
def rrAdmitAux (ps : List Process) (bound : Nat) (st : RRState) : RRState :=
  match bound with
  | 0 => st
  | bound + 1 =>
    if st.processCounter < ps.length ∧
        (ps.getD st.processCounter default).arrivalTime ≤ st.serviceTime then
      rrAdmitAux ps bound { st with
        queue := st.queue ++ [ps.getD st.processCounter default],
        processCounter := st.processCounter + 1 }
    else st

def rrAdmit (ps : List Process) (st : RRState) : RRState :=
  rrAdmitAux ps (ps.length - st.processCounter) st

/-- `const quantum = 1` (`main.go` line 366). -/
def quantum : Int := 1

/-- The loop `for len(queue) > 0 || processCounter < len(processes)`
(`main.go` lines 384–447).  Queue entries are the by-value copies Go makes
with `queue = append(queue, processes[processCounter])` and `currentProcess :=
queue[0]`, so `currentProcess.BurstDuration = remainingBurst` never touches
the input slice.  The row write `schedule[currentProcess.ProcessID-1]` has no
bounds check in Go and panics when `ProcessID-1` is not in `[0, len)`. -/
def rrLoop (ps : List Process) : Nat → RRState → RROut
  | 0, _ => .outOfFuel
  | fuel + 1, st =>
    if st.queue.length > 0 ∨ st.processCounter < ps.length then
      let st := rrAdmit ps st
      match st.queue with
      | [] => rrLoop ps fuel { st with serviceTime := st.serviceTime + 1 }
      | currentProcess :: rest =>
        let timeSlice := min quantum currentProcess.burstDuration
        let start := max st.serviceTime currentProcess.arrivalTime
        let turnaround := timeSlice + max 0 (start - currentProcess.arrivalTime)
        let completion := start + timeSlice
        let waitingTime := max 0 (start - currentProcess.arrivalTime)
        let remainingBurst := currentProcess.burstDuration - timeSlice
        let row : Row :=
          { id := currentProcess.processID, priority := currentProcess.priority,
            burst := timeSlice, arrival := start, wait := waitingTime,
            turnaround := turnaround, completion := completion }
        if 0 ≤ currentProcess.processID - 1 ∧ currentProcess.processID - 1 < (ps.length : Int) then
          rrLoop ps fuel
            { st with
              queue := rest ++
                (if remainingBurst > 0 then
                  [{ currentProcess with burstDuration := remainingBurst }] else []),
              serviceTime := completion,
              totalWait := st.totalWait + (waitingTime : ℚ),
              totalTurnaround := st.totalTurnaround + (turnaround : ℚ),
              lastCompletion := (completion : ℚ),
              rows := setRow st.rows (currentProcess.processID - 1).toNat row,
              gantt := st.gantt ++
                [{ pid := currentProcess.processID, start := start, stop := completion }],
              dispatches := st.dispatches ++ [⟨currentProcess.arrivalTime, row⟩] }
        else .indexPanic
    else
      .ok st.rows st.gantt st.dispatches
        (goDiv st.totalWait (ps.length : ℚ))
        (goDiv st.totalTurnaround (ps.length : ℚ))
        (goDiv (ps.length : ℚ) st.lastCompletion)

def rrInit (n : Nat) : RRState :=
  { serviceTime := 0, totalWait := 0, totalTurnaround := 0, lastCompletion := 0,
    rows := List.replicate n none, gantt := [], dispatches := [], queue := [],
    processCounter := 0 }

/-- Fuel that the Go loop can never outrun: every iteration either dispatches
(of which there are at most `Σ max(1, burst)` across the run, each dispatch
consuming at least one unit of a positive burst or retiring a non-positive
one) or idles with `serviceTime++`, which happens at most `Σ max(0, arrival)`
times before every process has been admitted. -/
def rrFuel (processes : List Process) : Nat :=
  (processes.map (fun p => p.burstDuration.toNat + 1)).sum +
    (processes.map (fun p => p.arrivalTime.toNat)).sum + processes.length + 2

/-- `RRSchedule` (`main.go` lines 364–457) minus the console rendering.  The
first component is the caller's slice after the call: the function reads
`processes` but only mutates by-value copies, so it is returned unchanged. -/
def RRSchedule (processes : List Process) : List Process × RROut :=
  (processes, rrLoop processes (rrFuel processes) (rrInit processes.length))

/-! ## Inputs and observations named by the claims -/

/-- The batch `[{id:1,arrival:0,burst:5},{id:2,arrival:0,burst:3}]`. -/
def fcfsPair : List Process := [⟨1, 0, 5, 0⟩, ⟨2, 0, 3, 0⟩]

/-- The batch `[{id:1,arrival:0,burst:3},{id:2,arrival:1,burst:2}]`. -/
def rrPair : List Process := [⟨1, 0, 3, 0⟩, ⟨2, 1, 2, 0⟩]

/-- A single-process batch whose process arrives after time 0 (positive
burst). -/
def lateArrival : List Process := [⟨1, 1, 1, 0⟩]

/-- A two-process batch not ordered by arrival time (distinct arrivals, so
every correct comparison sort reorders it the same way). -/
def unsortedPair : List Process := [⟨1, 1, 2, 0⟩, ⟨2, 0, 3, 0⟩]

/-- A single-process batch whose process id 0 lies outside the dense 1-based
range `1..len(processes)`. -/
def zeroIdSingleton : List Process := [⟨0, 0, 2, 0⟩]

/-- Total CPU time a trace grants to process `pid`. -/
def coveredTime (gantt : List TimeSlice) (pid : Int) : Int :=
  ((gantt.filter (fun t => t.pid == pid)).map (fun t => t.stop - t.start)).sum

/-- Sum of the per-dispatch waiting times logged for `pid`. -/
def cumWait (ds : List Dispatch) (pid : Int) : Int :=
  ((ds.filter (fun d => d.row.id == pid)).map (fun d => d.row.wait)).sum

/-- Completion time of the last logged dispatch of `pid` (0 if none). -/
def lastCompletionOf (ds : List Dispatch) (pid : Int) : Int :=
  (((ds.filter (fun d => d.row.id == pid)).map (fun d => d.row.completion)).getLast?).getD 0

/-! ## Direct-recurrence reformulations used by the proofs -/

/-- Burst total of the first `i` processes — the value `serviceTime` holds
when iteration `i` of FCFS's loop begins. -/
def sumBurst (ps : List Process) (i : Nat) : Int :=
  ((ps.take i).map (fun p => p.burstDuration)).sum

/-- The rows FCFS's loop emits when entered with clock `serviceTime` and with
`waitingTime` holding the previous iteration's value. -/
def fcfsRowsFrom (serviceTime waitingTime : Int) : List Process → List Row
  | [] => []
  | p :: rest =>
    let w := if p.arrivalTime > 0 then serviceTime - p.arrivalTime else waitingTime
    { id := p.processID, priority := p.priority, burst := p.burstDuration,
      arrival := p.arrivalTime, wait := w, turnaround := p.burstDuration + w,
      completion := p.burstDuration + p.arrivalTime + w } ::
      fcfsRowsFrom (serviceTime + p.burstDuration) w rest

/-- The Gantt entries FCFS's loop emits, same convention. -/
def fcfsGanttFrom (serviceTime waitingTime : Int) : List Process → List TimeSlice
  | [] => []
  | p :: rest =>
    let w := if p.arrivalTime > 0 then serviceTime - p.arrivalTime else waitingTime
    { pid := p.processID, start := w + p.arrivalTime,
      stop := serviceTime + p.burstDuration } ::
      fcfsGanttFrom (serviceTime + p.burstDuration) w rest

/-- The waiting time FCFS's loop has in hand at iteration `i`, same
convention. -/
def fcfsWaitFrom (serviceTime waitingTime : Int) : List Process → Nat → Int
  | [], _ => waitingTime
  | p :: rest, i =>
    let w := if p.arrivalTime > 0 then serviceTime - p.arrivalTime else waitingTime
    match i with
    | 0 => w
    | i + 1 => fcfsWaitFrom (serviceTime + p.burstDuration) w rest i

/-- The schedule rows of a completed SJF-loop run (empty otherwise). -/
def SJFOut.rowsOf : SJFOut → List (Option Row)
  | .ok rows _ _ _ _ => rows
  | _ => []

/-! ## Lemmas about the sort model -/

theorem insertByArrival_perm (p : Process) (l : List Process) :
    (insertByArrival p l).Perm (p :: l) := by
  induction l with
  | nil => simp [insertByArrival]
  | cons q rest ih =>
    simp only [insertByArrival]
    split
    · exact (ih.cons q).trans (List.Perm.swap p q rest)
    · exact List.Perm.refl _

theorem sortByArrival_perm (l : List Process) : (sortByArrival l).Perm l := by
  induction l with
  | nil => simp [sortByArrival]
  | cons p rest ih =>
    exact (insertByArrival_perm p _).trans (ih.cons p)

theorem sorted_insertByArrival {p : Process} {l : List Process}
    (h : l.Sorted arrivalLE) : (insertByArrival p l).Sorted arrivalLE := by
  induction l with
  | nil => simp [insertByArrival, arrivalLE]
  | cons q rest ih =>
    rw [List.sorted_cons] at h
    simp only [insertByArrival]
    split
    · rename_i hlt
      rw [List.sorted_cons]
      refine ⟨fun b hb => ?_, ih h.2⟩
      rcases List.mem_cons.mp ((insertByArrival_perm p rest).mem_iff.mp hb) with rfl | hb2
      · exact le_of_lt hlt
      · exact h.1 b hb2
    · rename_i hge
      rw [List.sorted_cons]
      refine ⟨fun b hb => ?_, List.sorted_cons.mpr h⟩
      rcases List.mem_cons.mp hb with rfl | hb2
      · exact le_of_not_lt hge
      · exact le_trans (le_of_not_lt hge) (h.1 b hb2)

theorem sortByArrival_sorted (l : List Process) : (sortByArrival l).Sorted arrivalLE := by
  induction l with
  | nil => simp [sortByArrival]
  | cons p rest ih => exact sorted_insertByArrival ih

/-! ## Lemmas about FCFSSchedule's loop -/

theorem fcfsRun_rows (ps : List Process) : ∀ acc : FCFSAcc,
    (fcfsRun acc ps).rows =
      acc.rows ++ fcfsRowsFrom acc.serviceTime acc.waitingTime ps := by
  induction ps with
  | nil => intro acc; simp [fcfsRun, fcfsRowsFrom]
  | cons p rest ih =>
    intro acc
    simp only [fcfsRun, fcfsRowsFrom]
    rw [ih]
    simp [fcfsStep]

theorem fcfsRun_gantt (ps : List Process) : ∀ acc : FCFSAcc,
    (fcfsRun acc ps).gantt =
      acc.gantt ++ fcfsGanttFrom acc.serviceTime acc.waitingTime ps := by
  induction ps with
  | nil => intro acc; simp [fcfsRun, fcfsGanttFrom]
  | cons p rest ih =>
    intro acc
    simp only [fcfsRun, fcfsGanttFrom]
    rw [ih]
    simp [fcfsStep]

theorem FCFSSchedule_rows_eq (ps : List Process) :
    (FCFSSchedule ps).rows = fcfsRowsFrom 0 0 ps := by
  show (fcfsRun fcfsInit ps).rows = _
  rw [fcfsRun_rows]
  simp [fcfsInit]

theorem FCFSSchedule_gantt_eq (ps : List Process) :
    (FCFSSchedule ps).gantt = fcfsGanttFrom 0 0 ps := by
  show (fcfsRun fcfsInit ps).gantt = _
  rw [fcfsRun_gantt]
  simp [fcfsInit]

theorem fcfsRowsFrom_getD (ps : List Process) :
    ∀ (st w : Int) (i : Nat), i < ps.length →
      (fcfsRowsFrom st w ps).getD i default =
        { id := (ps.getD i default).processID,
          priority := (ps.getD i default).priority,
          burst := (ps.getD i default).burstDuration,
          arrival := (ps.getD i default).arrivalTime,
          wait := fcfsWaitFrom st w ps i,
          turnaround := (ps.getD i default).burstDuration + fcfsWaitFrom st w ps i,
          completion := (ps.getD i default).burstDuration +
            (ps.getD i default).arrivalTime + fcfsWaitFrom st w ps i } := by
  induction ps with
  | nil => intro st w i hi; simp at hi
  | cons p rest ih =>
    intro st w i hi
    cases i with
    | zero => simp [fcfsRowsFrom, fcfsWaitFrom]
    | succ i =>
      simp only [fcfsRowsFrom, fcfsWaitFrom, List.getD_cons_succ]
      exact ih _ _ i (by simpa using hi)

theorem fcfsGanttFrom_start_getD (ps : List Process) :
    ∀ (st w : Int) (i : Nat), i < ps.length →
      ((fcfsGanttFrom st w ps).getD i default).start =
        fcfsWaitFrom st w ps i + (ps.getD i default).arrivalTime := by
  induction ps with
  | nil => intro st w i hi; simp at hi
  | cons p rest ih =>
    intro st w i hi
    cases i with
    | zero => simp [fcfsGanttFrom, fcfsWaitFrom]
    | succ i =>
      simp only [fcfsGanttFrom, fcfsWaitFrom, List.getD_cons_succ]
      exact ih _ _ i (by simpa using hi)

theorem fcfsWaitFrom_eq (ps : List Process) :
    ∀ (st w : Int) (i : Nat), i < ps.length →
      fcfsWaitFrom st w ps i =
        if 0 < (ps.getD i default).arrivalTime then
          st + sumBurst ps i - (ps.getD i default).arrivalTime
        else if i = 0 then w else fcfsWaitFrom st w ps (i - 1) := by
  induction ps with
  | nil => intro st w i hi; simp at hi
  | cons p rest ih =>
    intro st w i hi
    cases i with
    | zero =>
      simp only [fcfsWaitFrom, List.getD_cons_zero, if_pos rfl, sumBurst,
        List.take_zero, List.map_nil, List.sum_nil]
      split <;> [skip; rfl]
      omega
    | succ i =>
      have hi' : i < rest.length := by simpa using hi
      have hstep : fcfsWaitFrom st w (p :: rest) (i + 1) =
          fcfsWaitFrom (st + p.burstDuration)
            (if p.arrivalTime > 0 then st - p.arrivalTime else w) rest i := rfl
      have hsum : sumBurst (p :: rest) (i + 1) = p.burstDuration + sumBurst rest i := by
        simp [sumBurst]
      rw [hstep, ih _ _ i hi']
      simp only [List.getD_cons_succ, Nat.succ_ne_zero, if_false, Nat.add_sub_cancel]
      split
      · rw [hsum]; ring
      · cases i with
        | zero => simp [fcfsWaitFrom]
        | succ j => simp only [Nat.succ_ne_zero, if_false, Nat.add_sub_cancel]; rfl

/-! ## Theorems about the claims -/

/-- C1 (amended): `FCFSSchedule` and `RRSchedule` leave the caller's process
slice unchanged (FCFS only reads it; Round-Robin decrements remaining burst
only on the by-value copies held in its working queue), but `SJFSchedule` and
`SJFPrioritySchedule` do not: their in-place `sort.Slice` reorders the
caller's slice into some arrival-ascending permutation of the input, so it is
mutated whenever it is not already so ordered. -/
theorem schedulers_frame_effects (ps : List Process) :
    (FCFSSchedule ps).processesAfter = ps ∧
      (RRSchedule ps).1 = ps ∧
      ((SJFSchedule ps).1).Perm ps ∧ ((SJFSchedule ps).1).Sorted arrivalLE ∧
      ((SJFPrioritySchedule ps).1).Perm ps ∧
      ((SJFPrioritySchedule ps).1).Sorted arrivalLE :=
  ⟨rfl, rfl, sortByArrival_perm ps, sortByArrival_sorted ps,
    sortByArrival_perm ps, sortByArrival_sorted ps⟩

/-- C6: for positive bursts, SJF-Priority's ready-order key (the truncated
division of 1 by the burst) equals `⌊1 / burstDuration⌋`; in particular it is
1, 0, 0 at bursts 1, 2, 3, and 0 for every burst ≥ 2. -/
theorem sjf_priority_key_floor (b : Int) (hb : 0 < b) :
    sjfPriorityKey b = ⌊(1 : ℚ) / (b : ℚ)⌋ ∧
      sjfPriorityKey 1 = 1 ∧ sjfPriorityKey 2 = 0 ∧ sjfPriorityKey 3 = 0 ∧
      (2 ≤ b → sjfPriorityKey b = 0) := by
  have key0 : ∀ c : Int, 2 ≤ c → sjfPriorityKey c = 0 := by
    intro c hc
    obtain ⟨k, rfl⟩ : ∃ k : Nat, c = (k : Int) := ⟨c.toNat, by omega⟩
    have hk : 2 ≤ k := by exact_mod_cast hc
    show Int.tdiv 1 (Int.ofNat k) = 0
    rw [show Int.tdiv 1 (Int.ofNat k) = Int.ofNat (1 / k) from rfl,
      Nat.div_eq_of_lt (by omega)]
    rfl
  refine ⟨?_, by decide, by decide, by decide, key0 b⟩
  have hcase : b = 1 ∨ 2 ≤ b := by omega
  rcases hcase with rfl | h2
  · norm_num [sjfPriorityKey]
  · rw [key0 b h2]
    have hb1 : (1 : ℚ) < (b : ℚ) := by exact_mod_cast (by omega : (1 : Int) < b)
    symm
    rw [Int.floor_eq_zero_iff]
    constructor
    · positivity
    · rw [div_lt_one (by positivity)]
      exact hb1

/-- Witness for C6 at burst 2. -/
theorem sjf_priority_key_floor_witness :
    (0 : Int) < 2 ∧ sjfPriorityKey 2 = ⌊(1 : ℚ) / ((2 : Int) : ℚ)⌋ ∧
      sjfPriorityKey 2 = 0 :=
  ⟨by decide, (sjf_priority_key_floor 2 (by decide)).1,
    (sjf_priority_key_floor 2 (by decide)).2.2.2.2 (by decide)⟩

/-- C2: the claim says that whenever the ready queue would be empty on a loop
iteration, the clock is advanced to the next arrival before a pop, making the
pop-on-empty branch unreachable for positive-burst batches.  No such clock
advance exists in the code: on the positive-burst batch whose single process
arrives at time 1, the admission phase admits nothing at `serviceTime = 0` and
both SJF loops immediately pop the empty ready queue — Go panics inside
`heap.Pop` (index out of range), modelled as `emptyPop`. -/
theorem sjf_pops_empty_queue_on_late_arrival :
    (SJFSchedule lateArrival).2 = SJFOut.emptyPop ∧
      (SJFPrioritySchedule lateArrival).2 = SJFOut.emptyPop := by
  decide

unseal Rat.add Rat.mul Rat.inv Rat.sub in
/-- C3 counterexample: on `[{id:1,arrival:0,burst:5},{id:2,arrival:0,burst:3}]`
FCFS does not produce average wait `2.5`: both arrivals are 0, so
`waitingTime` is never assigned and both rows keep wait 0. -/
theorem fcfs_pair_average_wait_not_half_five :
    (FCFSSchedule fcfsPair).aveWait ≠ GoFloat.num (5 / 2) := by
  decide

unseal Rat.add Rat.mul Rat.inv Rat.sub in
/-- C3 (amended): on that batch FCFS produces average wait `0`, because each
process's `arrivalTime` is 0, so the waiting time is never recomputed and the
initial stale value 0 is reused for both processes. -/
theorem fcfs_pair_average_wait_zero :
    (FCFSSchedule fcfsPair).aveWait = GoFloat.num 0 := by
  decide

/-- C4 counterexample: on `[{id:1,arrival:0,burst:3},{id:2,arrival:1,burst:2}]`
with quantum 1 the trace is not the claimed four-interval list — nor any
four-slice interleaving of it, since the claimed list grants process 2 only 1
of its 2 burst units while the actual trace covers each process's full
burst. -/
theorem rr_pair_trace_not_claimed :
    (RRSchedule rrPair).2.ganttOf ≠
        [⟨1, 0, 1⟩, ⟨1, 1, 2⟩, ⟨2, 2, 3⟩, ⟨1, 3, 4⟩] ∧
      coveredTime [⟨1, 0, 1⟩, ⟨1, 1, 2⟩, ⟨2, 2, 3⟩, ⟨1, 3, 4⟩] 2 ≠ 2 := by
  decide

/-- C4 (amended): on that batch the trace is
`[(1,0,1),(1,1,2),(2,2,3),(1,3,4),(2,4,5)]` — the claimed four intervals
followed by process 2's final unit — and it covers each process's full burst
(3 units for process 1, 2 units for process 2). -/
theorem rr_pair_trace :
    (RRSchedule rrPair).2.ganttOf =
        [⟨1, 0, 1⟩, ⟨1, 1, 2⟩, ⟨2, 2, 3⟩, ⟨1, 3, 4⟩, ⟨2, 4, 5⟩] ∧
      coveredTime (RRSchedule rrPair).2.ganttOf 1 = 3 ∧
      coveredTime (RRSchedule rrPair).2.ganttOf 2 = 2 := by
  decide

/-- C8 counterexample: in Round-Robin the cumulative identity fails.  For
process 1 of `[{id:1,arrival:0,burst:3},{id:2,arrival:1,burst:2}]` the last
interval ends at 4, but its per-dispatch waits (0, 1, 3 — each measured from
arrival, not incrementally) sum to 4, so
`arrivalTime + Σ wait + burstDuration = 0 + 4 + 3 = 7 ≠ 4`. -/
theorem rr_pair_cumulative_identity_fails :
    lastCompletionOf (RRSchedule rrPair).2.dispatchLog 1 = 4 ∧
      cumWait (RRSchedule rrPair).2.dispatchLog 1 = 4 ∧
      lastCompletionOf (RRSchedule rrPair).2.dispatchLog 1 ≠
        0 + cumWait (RRSchedule rrPair).2.dispatchLog 1 + 3 := by
  decide

unseal Rat.add Rat.mul Rat.inv Rat.sub in
/-- C9: on a zero-process batch no policy crashes, but none guards its
averages either: every aggregate is computed as `0.0/0.0` and is NaN (which
the footer then renders), contradicting the claimed "never NaN / explicit
no-data result". -/
theorem zero_process_aggregates_are_nan :
    (FCFSSchedule []).aveWait = GoFloat.nan ∧
      (FCFSSchedule []).aveTurnaround = GoFloat.nan ∧
      (FCFSSchedule []).aveThroughput = GoFloat.nan ∧
      (SJFSchedule []).2 = SJFOut.ok [] [] GoFloat.nan GoFloat.nan GoFloat.nan ∧
      (SJFPrioritySchedule []).2 =
        SJFOut.ok [] [] GoFloat.nan GoFloat.nan GoFloat.nan ∧
      (RRSchedule []).2 =
        RROut.ok [] [] [] GoFloat.nan GoFloat.nan GoFloat.nan := by
  decide

/-- C1 counterexample: `SJFSchedule` does not leave the input slice unchanged:
its in-place `sort.Slice` reorders any batch whose arrival times are not
already ascending (here the arrivals are distinct, so every correct comparison
sort yields this same reordering). -/
theorem sjf_mutates_unsorted_input :
    (SJFSchedule unsortedPair).1 ≠ unsortedPair := by
  decide

/-- C7: in `FCFSSchedule`, for each process in input order, the waiting time
is assigned `serviceTime - arrivalTime` (with `serviceTime` the burst total of
the earlier processes) only when that process's `arrivalTime > 0`; when
`arrivalTime = 0` it retains the previous iteration's value (initially 0), and
this possibly stale value feeds the process's start (Gantt), turnaround and
completion figures. -/
theorem fcfs_stale_wait (ps : List Process) (i : Nat) (hi : i < ps.length) :
    ((FCFSSchedule ps).rows.getD i default).wait =
        (if 0 < (ps.getD i default).arrivalTime then
          sumBurst ps i - (ps.getD i default).arrivalTime
        else if i = 0 then 0
        else ((FCFSSchedule ps).rows.getD (i - 1) default).wait) ∧
      ((FCFSSchedule ps).rows.getD i default).turnaround =
        (ps.getD i default).burstDuration + ((FCFSSchedule ps).rows.getD i default).wait ∧
      ((FCFSSchedule ps).rows.getD i default).completion =
        (ps.getD i default).burstDuration + (ps.getD i default).arrivalTime +
          ((FCFSSchedule ps).rows.getD i default).wait ∧
      ((FCFSSchedule ps).gantt.getD i default).start =
        ((FCFSSchedule ps).rows.getD i default).wait + (ps.getD i default).arrivalTime := by
  rw [FCFSSchedule_rows_eq, FCFSSchedule_gantt_eq, fcfsRowsFrom_getD ps 0 0 i hi,
    fcfsGanttFrom_start_getD ps 0 0 i hi]
  refine ⟨?_, rfl, rfl, rfl⟩
  rw [fcfsWaitFrom_eq ps 0 0 i hi]
  split
  · dsimp only; omega
  · split
    · rfl
    · rw [fcfsRowsFrom_getD ps 0 0 (i - 1) (by omega)]

/-- Witness for C7 on `fcfsPair` at index 1: the second process arrives at 0,
so its wait is the stale wait of row 0. -/
theorem fcfs_stale_wait_witness :
    1 < fcfsPair.length ∧
      ((FCFSSchedule fcfsPair).rows.getD 1 default).wait =
        (if 0 < (fcfsPair.getD 1 default).arrivalTime then
          sumBurst fcfsPair 1 - (fcfsPair.getD 1 default).arrivalTime
        else if 1 = 0 then 0
        else ((FCFSSchedule fcfsPair).rows.getD (1 - 1) default).wait) :=
  ⟨by decide, (fcfs_stale_wait fcfsPair 1 (by decide)).1⟩

/-! ## Loop invariants for the completion identity and the Round-Robin
bad-id panic -/

theorem sjfAdmitAux_rows (key : Int → Int) (ps : List Process) :
    ∀ (bound : Nat) (st : SJFState), (sjfAdmitAux key ps bound st).rows = st.rows := by
  intro bound
  induction bound with
  | zero => intro st; rfl
  | succ bound ih =>
    intro st
    rw [sjfAdmitAux]
    split
    · exact ih _
    · rfl

theorem fcfsRowsFrom_identity (ps : List Process) :
    ∀ (st w : Int), ∀ r ∈ fcfsRowsFrom st w ps,
      r.completion = r.arrival + r.wait + r.burst := by
  induction ps with
  | nil => intro st w r hr; simp [fcfsRowsFrom] at hr
  | cons p rest ih =>
    intro st w r hr
    simp only [fcfsRowsFrom] at hr
    rcases List.mem_cons.mp hr with rfl | hr2
    · dsimp only; ring
    · exact ih _ _ r hr2

theorem sjfLoop_rows_identity (key : Int → Int) (ps : List Process) :
    ∀ (fuel : Nat) (st : SJFState),
      (∀ r : Row, some r ∈ st.rows → r.completion = r.arrival + r.wait + r.burst) →
      ∀ r : Row, some r ∈ (sjfLoop key ps fuel st).rowsOf →
        r.completion = r.arrival + r.wait + r.burst := by
  intro fuel
  induction fuel with
  | zero => intro st hst r hr; simp [sjfLoop, SJFOut.rowsOf] at hr
  | succ fuel ih =>
    intro st hst r hr
    rw [sjfLoop] at hr
    split at hr
    · dsimp only at hr
      split at hr
      · simp [SJFOut.rowsOf] at hr
      · refine ih _ ?_ r hr
        intro r2 hr2
        simp only [sjfAdmitAux_rows] at hr2
        rcases List.mem_or_eq_of_mem_set hr2 with hold | hnew
        · exact hst r2 (by simpa [sjfAdmit, sjfAdmitAux_rows] using hold)
        · obtain rfl : r2 = _ := by injection hnew
          dsimp only; ring
    · exact hst r hr

theorem rrAdmitAux_dispatches (ps : List Process) :
    ∀ (bound : Nat) (st : RRState), (rrAdmitAux ps bound st).dispatches = st.dispatches := by
  intro bound
  induction bound with
  | zero => intro st; rfl
  | succ bound ih =>
    intro st
    rw [rrAdmitAux]
    split
    · exact ih _
    · rfl

/-- The per-dispatch arithmetic of Round-Robin: with `start = max(serviceTime,
arrivalTime)` and `wait = max(0, start - arrivalTime)`, the dispatch's
completion `start + timeSlice` equals `arrivalTime + wait + timeSlice`. -/
theorem rr_dispatch_arith (serviceTime arr slice : Int) :
    max serviceTime arr + slice = arr + max 0 (max serviceTime arr - arr) + slice := by
  have h := le_max_right serviceTime arr
  rw [max_eq_right (by omega : (0 : Int) ≤ max serviceTime arr - arr)]
  ring

theorem rrLoop_dispatch_identity (ps : List Process) :
    ∀ (fuel : Nat) (st : RRState),
      (∀ d ∈ st.dispatches,
        d.row.completion = d.procArrivalTime + d.row.wait + d.row.burst) →
      ∀ d ∈ (rrLoop ps fuel st).dispatchLog,
        d.row.completion = d.procArrivalTime + d.row.wait + d.row.burst := by
  intro fuel
  induction fuel with
  | zero => intro st hst d hd; simp [rrLoop, RROut.dispatchLog] at hd
  | succ fuel ih =>
    intro st hst d hd
    rw [rrLoop] at hd
    split at hd
    · dsimp only at hd
      split at hd
      · refine ih _ ?_ d hd
        intro d2 hd2
        exact hst d2 (by simpa [rrAdmit, rrAdmitAux_dispatches] using hd2)
      · split at hd
        · refine ih _ ?_ d hd
          intro d2 hd2
          simp only [rrAdmit, rrAdmitAux_dispatches, List.mem_append,
            List.mem_singleton] at hd2
          rcases hd2 with hold | rfl
          · exact hst d2 (by simpa [rrAdmit, rrAdmitAux_dispatches] using hold)
          · exact rr_dispatch_arith _ _ _
        · simp [RROut.dispatchLog] at hd
    · exact hst d hd

/-- C8 (amended): the identity `completion = arrivalTime + waitingTime +
burstDuration` holds for every schedule row of the three non-preemptive
policies (each row stores the process's own arrival and burst).  For
Round-Robin it holds per dispatch with that dispatch's time slice in place of
the full burst — `completion = arrivalTime + waitingTime + timeSlice` — while
the claimed cumulative version over a process's full original burst is false
(see the counterexample). -/
theorem completion_identity (ps : List Process) :
    (∀ r ∈ (FCFSSchedule ps).rows, r.completion = r.arrival + r.wait + r.burst) ∧
      (∀ r : Row, some r ∈ (SJFSchedule ps).2.rowsOf →
        r.completion = r.arrival + r.wait + r.burst) ∧
      (∀ r : Row, some r ∈ (SJFPrioritySchedule ps).2.rowsOf →
        r.completion = r.arrival + r.wait + r.burst) ∧
      (∀ fuel : Nat, ∀ d ∈ (rrLoop ps fuel (rrInit ps.length)).dispatchLog,
        d.row.completion = d.procArrivalTime + d.row.wait + d.row.burst) ∧
      (∀ d ∈ (RRSchedule ps).2.dispatchLog,
        d.row.completion = d.procArrivalTime + d.row.wait + d.row.burst) := by
  have hinitS : ∀ (n : Nat) (r : Row), some r ∈ (sjfInit n).rows →
      r.completion = r.arrival + r.wait + r.burst := by
    intro n r hr
    rw [show (sjfInit n).rows = List.replicate n none from rfl] at hr
    exact absurd (List.eq_of_mem_replicate hr) (by simp)
  have hinitR : ∀ d ∈ (rrInit ps.length).dispatches,
      d.row.completion = d.procArrivalTime + d.row.wait + d.row.burst := by
    intro d hd
    simp [rrInit] at hd
  refine ⟨?_, ?_, ?_, ?_, ?_⟩
  · intro r hr
    rw [FCFSSchedule_rows_eq] at hr
    exact fcfsRowsFrom_identity ps 0 0 r hr
  · intro r hr
    exact sjfLoop_rows_identity sjfKey (sortByArrival ps) _ _ (hinitS _) r hr
  · intro r hr
    exact sjfLoop_rows_identity sjfPriorityKey (sortByArrival ps) _ _ (hinitS _) r hr
  · intro fuel d hd
    exact rrLoop_dispatch_identity ps fuel _ hinitR d hd
  · intro d hd
    exact rrLoop_dispatch_identity ps (rrFuel ps) _ hinitR d hd

/-- Witness for C8's amended identity, instantiated on concrete rows of each
policy: FCFS and SJF-Priority dispatch process 1 of `fcfsPair` (completion 5 =
0 + 0 + 5), SJF dispatches process 2 (completion 3 = 0 + 0 + 3), and
Round-Robin's first dispatch on `rrPair` has completion 1 = 0 + 0 + 1. -/
theorem completion_identity_witness :
    ((⟨1, 0, 5, 0, 0, 5, 5⟩ : Row) ∈ (FCFSSchedule fcfsPair).rows ∧
        (⟨1, 0, 5, 0, 0, 5, 5⟩ : Row).completion =
          (⟨1, 0, 5, 0, 0, 5, 5⟩ : Row).arrival + (⟨1, 0, 5, 0, 0, 5, 5⟩ : Row).wait +
            (⟨1, 0, 5, 0, 0, 5, 5⟩ : Row).burst) ∧
      (some (⟨2, 0, 3, 0, 0, 3, 3⟩ : Row) ∈ (SJFSchedule fcfsPair).2.rowsOf ∧
        (⟨2, 0, 3, 0, 0, 3, 3⟩ : Row).completion =
          (⟨2, 0, 3, 0, 0, 3, 3⟩ : Row).arrival + (⟨2, 0, 3, 0, 0, 3, 3⟩ : Row).wait +
            (⟨2, 0, 3, 0, 0, 3, 3⟩ : Row).burst) ∧
      (some (⟨1, 0, 5, 0, 0, 5, 5⟩ : Row) ∈ (SJFPrioritySchedule fcfsPair).2.rowsOf ∧
        (⟨1, 0, 5, 0, 0, 5, 5⟩ : Row).completion =
          (⟨1, 0, 5, 0, 0, 5, 5⟩ : Row).arrival + (⟨1, 0, 5, 0, 0, 5, 5⟩ : Row).wait +
            (⟨1, 0, 5, 0, 0, 5, 5⟩ : Row).burst) ∧
      ((⟨0, ⟨1, 0, 1, 0, 0, 1, 1⟩⟩ : Dispatch) ∈ (RRSchedule rrPair).2.dispatchLog ∧
        (⟨0, ⟨1, 0, 1, 0, 0, 1, 1⟩⟩ : Dispatch).row.completion =
          (⟨0, ⟨1, 0, 1, 0, 0, 1, 1⟩⟩ : Dispatch).procArrivalTime +
            (⟨0, ⟨1, 0, 1, 0, 0, 1, 1⟩⟩ : Dispatch).row.wait +
            (⟨0, ⟨1, 0, 1, 0, 0, 1, 1⟩⟩ : Dispatch).row.burst) :=
  ⟨⟨by decide, (completion_identity fcfsPair).1 _ (by decide)⟩,
    ⟨by decide, (completion_identity fcfsPair).2.1 _ (by decide)⟩,
    ⟨by decide, (completion_identity fcfsPair).2.2.1 _ (by decide)⟩,
    ⟨by decide, (completion_identity rrPair).2.2.2.2 _ (by decide)⟩⟩

/-! ## The Round-Robin bad-id invariant (C10) -/

theorem rrAdmitAux_mem (ps : List Process) :
    ∀ (bound : Nat) (st : RRState) (p : Process),
      (p ∈ st.queue ∨ p ∈ ps.drop st.processCounter) →
      p ∈ (rrAdmitAux ps bound st).queue ∨
        p ∈ ps.drop (rrAdmitAux ps bound st).processCounter := by
  intro bound
  induction bound with
  | zero => intro st p h; exact h
  | succ bound ih =>
    intro st p h
    rw [rrAdmitAux]
    split
    · rename_i hcond
      apply ih
      rcases h with hq | hdp
      · exact Or.inl (List.mem_append_left _ hq)
      · rw [List.drop_eq_getElem_cons hcond.1] at hdp
        rcases List.mem_cons.mp hdp with rfl | hd2
        · refine Or.inl (List.mem_append_right _ ?_)
          simp [List.getD, List.getElem?_eq_getElem hcond.1]
        · exact Or.inr (by simpa using hd2)
    · exact h

/-- Once a process whose id falls outside the schedule table is in the system
(in the ready queue or not yet admitted), `RRSchedule`'s loop can never
complete normally: the loop only terminates once every process has been
dispatched at least once, and dispatching that process hits the unchecked
`schedule[ProcessID-1]` write. -/
theorem rrLoop_not_ok_of_bad_id (ps : List Process) :
    ∀ (fuel : Nat) (st : RRState) (p : Process),
      (p.processID < 1 ∨ (ps.length : Int) < p.processID) →
      (p ∈ st.queue ∨ p ∈ ps.drop st.processCounter) →
      (rrLoop ps fuel st).isOk = false := by
  intro fuel
  induction fuel with
  | zero => intro st p hbad hmem; rfl
  | succ fuel ih =>
    intro st p hbad hmem
    have hmem' : p ∈ (rrAdmit ps st).queue ∨ p ∈ ps.drop (rrAdmit ps st).processCounter :=
      rrAdmitAux_mem ps (ps.length - st.processCounter) st p hmem
    rw [rrLoop]
    split
    · dsimp only
      split
      · rename_i hq
        refine ih _ p hbad ?_
        dsimp only
        rcases hmem' with hq2 | hd
        · rw [hq] at hq2; simp at hq2
        · exact Or.inr hd
      · rename_i cur rest hq
        split
        · rename_i hrange
          refine ih _ p hbad ?_
          dsimp only
          rcases hmem' with hq2 | hd
          · rw [hq] at hq2
            rcases List.mem_cons.mp hq2 with rfl | hrest
            · exfalso; omega
            · exact Or.inl (List.mem_append_left _ hrest)
          · exact Or.inr hd
        · rfl
    · rename_i hcond
      exfalso
      rw [not_or] at hcond
      have hqnil : st.queue = [] := by
        cases hql : st.queue with
        | nil => rfl
        | cons a l => rw [hql] at hcond; simp at hcond
      have hdrop : ps.drop st.processCounter = [] :=
        List.drop_eq_nil_of_le (by omega)
      rcases hmem with hq | hd
      · rw [hqnil] at hq; simp at hq
      · rw [hdrop] at hd; simp at hd

/-- C10: every batch containing a process whose id is outside the dense
1-based range `1..len(processes)` makes `RRSchedule` fail with the
index-out-of-range panic of `schedule[ProcessID-1]` rather than produce a
schedule: for no amount of fuel does the loop complete normally (each
terminating run ends in `indexPanic`, as the witness shows on a concrete
batch). -/
theorem rr_bad_id_never_schedules (ps : List Process)
    (h : ∃ p ∈ ps, p.processID < 1 ∨ (ps.length : Int) < p.processID) :
    (∀ fuel : Nat, (rrLoop ps fuel (rrInit ps.length)).isOk = false) ∧
      (RRSchedule ps).2.isOk = false := by
  obtain ⟨p, hp, hbad⟩ := h
  have hall : ∀ fuel : Nat, (rrLoop ps fuel (rrInit ps.length)).isOk = false :=
    fun fuel =>
      rrLoop_not_ok_of_bad_id ps fuel (rrInit ps.length) p hbad (Or.inr (by simpa using hp))
  exact ⟨hall, hall (rrFuel ps)⟩

/-- Witness for C10 on the single-process batch with id 0: the run terminates
in the index panic, never a schedule. -/
theorem rr_bad_id_never_schedules_witness :
    (RRSchedule zeroIdSingleton).2.isOk = false ∧
      (RRSchedule zeroIdSingleton).2 = RROut.indexPanic :=
  ⟨(rr_bad_id_never_schedules zeroIdSingleton
      ⟨⟨0, 0, 2, 0⟩, by decide, by decide⟩).2, by decide⟩

end CSCE4600
